import Mathlib

/-
Verification of the busybee workflow engine core (pkg/core/engine.go,
pkg/core/transaction.go, pkg/storage/batch.go) against its specification.

Crowd bitmaps (roaring bitmaps of 32-bit user ids) are modelled as finite
sets of naturals; every bitmap operation used by the code (Or, And, AndNot,
Add, Remove, Contains, GetCardinality, Clear) maps to the corresponding
Finset operation, under which cardinality and membership behave identically.
-/

namespace Busybee

/-- A roaring bitmap of 32-bit user ids, modelled as a finite set of naturals. -/
abbrev BM : Type := Finset ℕ

/-- metapb Execution type: Timer, Direct or Conditional step execution. -/
inductive ExecutionType where
  | Timer
  | Direct
  | Conditional
deriving DecidableEq, Repr

/-- The per-step data the transaction reads from `tran.w.state.States[idx].Step`:
its name, its execution type and its TTL. -/
structure StepInfo where
  name : String
  execType : ExecutionType
  ttl : ℤ
deriving DecidableEq, Repr

/-- `who` from transaction.go: a single user id plus an optional bulk bitmap.
`users = none` models the Go nil pointer (single-user operation). -/
structure Who where
  user : ℕ
  users : Option BM
deriving DecidableEq

/-- `changedCtx` from transaction.go: a transition record (from, to, who, ttl). -/
structure ChangedCtx where
  from_ : String
  to_ : String
  who : Who
  ttl : ℤ
deriving DecidableEq

/-- A queue item handed to the transaction: its payload and an optional
callback (`item.cb`, modelled by an id). -/
structure Item (α : Type) where
  value : α
  cb : Option ℕ

/-- metapb.UserEvent as used by doStepUserEvents. -/
structure UserEvent where
  tenantID : ℕ
  workflowID : ℕ
  instanceID : ℕ
  userID : ℕ

/-- The read-only worker data the transaction consults.  `states` embeds
`w.state.States`; `directSteps` and `isDirect` embed the worker's
`directSteps` map and `isDirectStep` predicate, which are built by worker
construction code outside the sources at hand, so they are carried as data. -/
structure StateWorker where
  states : List StepInfo
  directSteps : String → String
  isDirect : String → Bool

/-- The `transaction` struct from transaction.go: the shard's total crowd,
one mutable crowd per step, the sticky error, collected callbacks,
accumulated transition records, and the crowd-changed flag. -/
structure Transaction where
  totalCrowds : BM
  stepCrowds : List BM
  err : Option String
  cbs : List ℕ
  changes : List ChangedCtx
  crowdChanged : Bool
deriving DecidableEq

/-- `transaction.removeFromStep` (transaction.go:1836).  Bulk case: computes
`stepCrowds[idx] AND NOT users`; when the cardinality is unchanged keeps the
crowd, otherwise installs the reduced crowd.  The `changed` flag starts false
and, exactly as in the source, is never set to true in any branch. -/
def removeFromStep (t : Transaction) (idx : ℕ) (target : Who) : Transaction × Bool :=
  match target.users with
  | some u =>
    if (t.stepCrowds.getD idx ∅).card = ((t.stepCrowds.getD idx ∅) \ u).card then
      (t, false)
    else
      ({ t with stepCrowds := t.stepCrowds.set idx ((t.stepCrowds.getD idx ∅) \ u) }, false)
  | none =>
    ({ t with stepCrowds := t.stepCrowds.set idx ((t.stepCrowds.getD idx ∅).erase target.user) },
      false)

/-- `transaction.moveToStep` (transaction.go:1851).  Bulk case: unions the
target users into the step crowd and reports whether the cardinality grew.
Single-user case: adds the user and, exactly as in the source, reports
`changed = true` unconditionally. -/
def moveToStep (t : Transaction) (idx : ℕ) (target : Who) : Transaction × Bool :=
  match target.users with
  | some u =>
    if (t.stepCrowds.getD idx ∅).card = ((t.stepCrowds.getD idx ∅) ∪ u).card then
      (t, false)
    else
      ({ t with stepCrowds := t.stepCrowds.set idx ((t.stepCrowds.getD idx ∅) ∪ u) }, true)
  | none =>
    ({ t with stepCrowds := t.stepCrowds.set idx (insert target.user (t.stepCrowds.getD idx ∅)) },
      true)

/-- Modelled from the spec: `changedCtx.add` is not among the sources at
hand; per the spec the accumulated records are merged by (from, to) so
repeated transitions on the same edge coalesce into one bulk record, hence
`add` folds the other record's target (bulk set, or the single user) into
this record's bulk crowd. -/
def ChangedCtx.add (c other : ChangedCtx) : ChangedCtx :=
  { c with who := { c.who with
      users := some ((c.who.users.getD ∅) ∪
        (match other.who.users with
         | some us => us
         | none => {other.who.user})) } }

/-- The search loop of `transaction.addChanged` (transaction.go:1867): find
the first accumulated record with the same (from, to) and merge into it;
`none` means no record matched (the Go loop fell through). -/
def addChangedGo (c : ChangedCtx) : List ChangedCtx → Option (List ChangedCtx)
  | [] => none
  | e :: rest =>
    if e.from_ = c.from_ ∧ e.to_ = c.to_ then some (ChangedCtx.add e c :: rest)
    else (addChangedGo c rest).map (fun l => e :: l)

/-- `transaction.addChanged` (transaction.go:1867): merge into an existing
(from, to) record and return early, or append a fresh record (whose bulk
crowd starts empty) and only then mark `crowdChanged`. -/
def addChanged (t : Transaction) (c : ChangedCtx) : Transaction :=
  match addChangedGo c t.changes with
  | some cs => { t with changes := cs }
  | none =>
    { t with
      changes := t.changes ++ [ChangedCtx.add ⟨c.from_, c.to_, ⟨0, some ∅⟩, c.ttl⟩ c],
      crowdChanged := true }

/-- The direct-chain walk inside `maybeTriggerDirectSteps`
(transaction.go:1817): starting from a direct step, hop along `directSteps`
emitting one (from, to) record per hop, until the next step is not direct.
The Go loop has no bound; the fuel argument makes the function total, with
`none` meaning the walk did not reach a non-direct step within `fuel` hops. -/
def directChain (isD : String → Bool) (next : String → String) :
    ℕ → String → Option (List (String × String))
  | 0, _ => none
  | Nat.succ n, f =>
    if isD (next f) then
      (directChain isD next n (next f)).map (fun l => (f, next f) :: l)
    else
      some [(f, next f)]

/-- The walk of `directChain` reaches a non-direct step for some fuel. -/
def directChainTerminates (isD : String → Bool) (next : String → String) (s : String) : Prop :=
  ∃ n l, directChain isD next n s = some l

/-- `transaction.maybeTriggerDirectSteps` (transaction.go:1810): if the
entered step is direct, walk the direct chain adding one changedCtx per hop
(ttl 0), then remove the users from the entered step and move them to the
first index whose step carries the final target name. -/
def maybeTriggerDirectSteps (w : StateWorker) (fuel : ℕ) (idx : ℕ) (c : ChangedCtx)
    (t : Transaction) : Option Transaction :=
  if w.isDirect c.to_ then
    match directChain w.isDirect w.directSteps fuel c.to_ with
    | none => none
    | some hops =>
      let t1 := hops.foldl (fun acc h => addChanged acc ⟨h.1, h.2, c.who, 0⟩) t
      let t2 := (removeFromStep t1 idx c.who).1
      some (match w.states.findIdx? (fun s => s.name == ((hops.getLast?).map Prod.snd).getD c.to_) with
            | some j => (moveToStep t2 j c.who).1
            | none => t2)
  else some t

/-- The index loop of `transaction.stepChanged` (transaction.go:1795),
iterating the worker's steps with their indices: a step named `ctx.from`
gets `removeFromStep` (its flag is discarded); a step named `ctx.to_` gets
`moveToStep`, the record's ttl is set from the step, and only when the move
reported a change is the record accumulated and the direct chain triggered.
The per-record ttl update is threaded, as the Go ctx value is. -/
def stepChangedLoop (w : StateWorker) (fuel : ℕ) :
    List StepInfo → ℕ → ChangedCtx → Transaction → Option Transaction
  | [], _, _, t => some t
  | s :: rest, idx, c, t =>
    if s.name = c.from_ then
      stepChangedLoop w fuel rest (idx + 1) c (removeFromStep t idx c.who).1
    else if s.name = c.to_ then
      if (moveToStep t idx c.who).2 then
        (maybeTriggerDirectSteps w fuel idx { c with ttl := s.ttl }
            (addChanged (moveToStep t idx c.who).1 { c with ttl := s.ttl })).bind
          (stepChangedLoop w fuel rest (idx + 1) { c with ttl := s.ttl })
      else
        stepChangedLoop w fuel rest (idx + 1) { c with ttl := s.ttl } (moveToStep t idx c.who).1
    else
      stepChangedLoop w fuel rest (idx + 1) c t

/-- `transaction.stepChanged` (transaction.go:1787): a bulk user set is
first intersected with the transaction's total crowd (scoping the move to
this shard), then the step loop runs. -/
def stepChanged (w : StateWorker) (fuel : ℕ) (c : ChangedCtx) (t : Transaction) :
    Option Transaction :=
  stepChangedLoop w fuel w.states 0
    (match c.who.users with
     | some u => { c with who := { c.who with users := some (u ∩ t.totalCrowds) } }
     | none => c)
    t

/-- Collecting `item.cb` into `tran.cbs`, as done at the top of
doStepUserEvents and doUpdateCrowd. -/
def collectCb {α : Type} (it : Item α) (t : Transaction) : Transaction :=
  match it.cb with
  | some cb => { t with cbs := t.cbs ++ [cb] }
  | none => t

/-- The crowd rewrite loop of `transaction.doUpdateCrowd`
(transaction.go:1775): step 0 first unions in the newly added users, then
every step (step 0 included) is intersected with the new total. -/
def applyNewTotal (newAdded newTotal : BM) : ℕ → List BM → List BM
  | _, [] => []
  | i, sc :: rest =>
    ((if i = 0 then sc ∪ newAdded else sc) ∩ newTotal) :: applyNewTotal newAdded newTotal (i + 1) rest

/-- `transaction.doUpdateCrowd` (transaction.go:1753): collect the callback,
short-circuit on a sticky error, otherwise parse the new total (the payload
is carried already parsed, the parser being external), compute
`newAdded = newTotal AND NOT totalCrowds`, replace the total, rewrite every
step crowd and mark `crowdChanged`. -/
def doUpdateCrowd (it : Item BM) (t : Transaction) : Transaction :=
  let t1 := collectCb it t
  if t1.err.isSome then t1
  else
    { t1 with
      totalCrowds := it.value,
      stepCrowds := applyNewTotal (it.value \ t1.totalCrowds) it.value 0 t1.stepCrowds,
      crowdChanged := true }

/-- The step evaluator invoked by the transaction (`step.Execute`); it is
external to the transaction code, so it is carried as a function from the
triggering event (none for a timer tick), the step index, the transaction
and the target, to the updated transaction and an optional error. -/
def ExecuteFn : Type :=
  Option UserEvent → ℕ → Transaction → Who → Transaction × Option String

/-- `transaction.doStepTimerEvent` (transaction.go:1687): short-circuit on a
sticky error, skip non-Timer steps, otherwise execute the step and record a
failure in the sticky error.  The storage write of the last-trigger key is
external and does not touch the transaction state. -/
def doStepTimerEvent (w : StateWorker) (execute : ExecuteFn) (it : Item ℕ)
    (t : Transaction) : Transaction :=
  if t.err.isSome then t
  else
    match w.states.get? it.value with
    | none => t
    | some step =>
      if step.execType ≠ ExecutionType.Timer then t
      else
        match execute none it.value t ⟨0, none⟩ with
        | (t1, some e) => { t1 with err := some e }
        | (t1, none) => t1

/-- The event loop of `transaction.doStepUserEvents` (transaction.go:1730):
for each event, find the first step crowd containing the user (users in no
step are ignored) and execute that step; an execution error becomes the
sticky error and stops the remaining events. -/
def doStepUserEventsGo (execute : ExecuteFn) : List UserEvent → Transaction → Transaction
  | [], t => t
  | e :: rest, t =>
    match t.stepCrowds.findIdx? (fun crowd => decide (e.userID ∈ crowd)) with
    | none => doStepUserEventsGo execute rest t
    | some idx =>
      match execute (some e) idx t ⟨e.userID, none⟩ with
      | (t1, some err) => { t1 with err := some err }
      | (t1, none) => doStepUserEventsGo execute rest t1

/-- `transaction.doStepUserEvents` (transaction.go:1721): collect the
callback, short-circuit on a sticky error, otherwise process the events. -/
def doStepUserEvents (execute : ExecuteFn) (it : Item (List UserEvent))
    (t : Transaction) : Transaction :=
  let t1 := collectCb it t
  if t1.err.isSome then t1
  else doStepUserEventsGo execute it.value t1

/-- metapb workflow-instance state. -/
inductive InstanceState where
  | Starting
  | Running
  | Stopping
  | Stopped
deriving DecidableEq, Repr

/-- The previous instance as `engine.StartInstance` sees it: its state and
the result of loading its crowd bitmap through its loader. -/
structure PrevInstance where
  state : InstanceState
  crowd : Except String BM

/-- What `engine.StartInstance` submits in the `Starting` command: the fresh
instance id, the persisted effective crowd, its cardinality as `TotalCrowd`,
and the worker count. -/
structure SubmittedInstance where
  instanceID : ℕ
  effectiveCrowd : BM
  totalCrowd : ℕ
  workers : ℕ
deriving DecidableEq

/-- The results of the external calls `engine.StartInstance` makes, in the
order it makes them: `checkExcution` (validation code outside the sources at
hand, only its verdict matters), `loadBM` of the requested crowd,
`loadInstance` of the previous instance, Prophet `AllocID`, `putBM` of the
effective crowd, and the `StartingInstance` `ExecCommand`. -/
structure StartEnv where
  checkRes : Option String
  loadCrowd : Except String BM
  loadInst : Except String (Option PrevInstance)
  alloc : Except String ℕ
  putRes : Except String Unit
  execRes : Except String Unit

/-- The tail of `engine.StartInstance` (engine.go:907): allocate the id,
persist the effective crowd, build the instance record with `TotalCrowd`
equal to the crowd's cardinality, and submit the `Starting` command. -/
def startSubmit (env : StartEnv) (workers : ℕ) (bm : BM) :
    Except String (Option SubmittedInstance) :=
  match env.alloc with
  | .error e => .error e
  | .ok id =>
    match env.putRes with
    | .error e => .error e
    | .ok _ =>
      match env.execRes with
      | .error e => .error e
      | .ok _ => .ok (some ⟨id, bm, bm.card, workers⟩)

/-- `engine.StartInstance` (engine.go:861): validate, load the requested
crowd, load the previous instance; a previous instance that is not Stopped
makes the call return nil without submitting anything; a Stopped previous
instance has its loader bitmap loaded and subtracted (`bm.AndNot(oldBM)`);
no previous instance leaves the crowd unchanged.  `.ok none` is the early
nil return, `.ok (some i)` means the `Starting` command was submitted. -/
def StartInstance (env : StartEnv) (workers : ℕ) :
    Except String (Option SubmittedInstance) :=
  match env.checkRes with
  | some e => .error e
  | none =>
    match env.loadCrowd with
    | .error e => .error e
    | .ok bm =>
      match env.loadInst with
      | .error e => .error e
      | .ok none => startSubmit env workers bm
      | .ok (some old) =>
        if old.state ≠ InstanceState.Stopped then .ok none
        else
          match old.crowd with
          | .error e => .error e
          | .ok oldBM => startSubmit env workers (bm \ oldBM)

/-- metapb.WorkflowInstanceWorkerState identity fields used by the engine's
worker registry (engine.go:1317, engine.go:1623). -/
structure WorkerState where
  tenantID : ℕ
  workflowID : ℕ
  instanceID : ℕ
  index : ℕ
  stopAt : ℤ
deriving DecidableEq

/-- `workerKey` (engine.go:1623): the decimal WorkflowID, a slash, the
decimal Index. -/
def workerKey (s : WorkerState) : String :=
  Nat.repr s.workflowID ++ "/" ++ Nat.repr s.index

/-- The worker key as the specification words it: the decimal InstanceID, a
slash, the decimal Index.  Stated only to compare with `workerKey`. -/
def workerKeyClaimed (s : WorkerState) : String :=
  Nat.repr s.instanceID ++ "/" ++ Nat.repr s.index

/-- Outcome of handling a worker-placement event. -/
inductive StartWorkerOutcome where
  | fatalBug
  | expired
  | created (key : String)
deriving DecidableEq, Repr

/-- `engine.doStartInstanceStateEvent` (engine.go:1317): a registry hit for
the worker key is a fatal BUG; a non-zero StopAt already reached skips the
worker; otherwise the worker is created and registered under the key
(`newStateWorker` failure only retries in place and eventually stores the
worker, so creation is modelled as succeeding). -/
def doStartInstanceStateEvent (registry : List String) (now : ℤ) (s : WorkerState) :
    StartWorkerOutcome :=
  if workerKey s ∈ registry then .fatalBug
  else if s.stopAt ≠ 0 ∧ now ≥ s.stopAt then .expired
  else .created (workerKey s)

/-- A raftcmdpb request as `batch.Add` sees it: its custom type and an
opaque payload id. -/
structure BatchReq where
  custemType : ℕ
  key : ℕ
deriving DecidableEq

/-- The `batch` struct fields `batch.Add` touches: the recorded shard and
the buffered requests (the dispatch through `b.fn` to a batchType buffer). -/
structure Batch where
  shard : ℕ
  buffered : List BatchReq
deriving DecidableEq

/-- Outcome of `batch.Add`: either the fatal BUG abort, or the updated
batch, the boolean added flag, and the optional response. -/
inductive AddOutcome where
  | fatalBug
  | ok (b : Batch) (added : Bool) (resp : Option ℕ)
deriving DecidableEq

/-- `batch.Add` (batch.go:54): differing non-zero shard is a fatal BUG;
otherwise the batch records the request's shard, and a request whose custom
type is supported is buffered and acknowledged with a response, while an
unsupported one yields (false, nil). -/
def batchAdd (supported : ℕ → Bool) (b : Batch) (shard : ℕ) (req : BatchReq) : AddOutcome :=
  if b.shard ≠ 0 ∧ b.shard ≠ shard then .fatalBug
  else
    if supported req.custemType then
      .ok ⟨shard, b.buffered ++ [req]⟩ true (some req.key)
    else
      .ok ⟨shard, b.buffered⟩ false none

/-- `countToClean` (batch.go:121). -/
def countToClean : ℕ := 4096

/-- `maxConsumerAlive` (batch.go:122): seven days in seconds. -/
def maxConsumerAlive : ℤ := 7 * 24 * 60 * 60

/-- Two to the sixty-fourth: the modulus of Go uint64 arithmetic. -/
def U64 : ℕ := 2 ^ 64

/-- One consumer row of the queue's consumer-offset scan: the committed
offset (first eight bytes) and the last-fetch timestamp (next eight bytes). -/
structure QueueConsumer where
  committed : ℕ
  lastFetchTS : ℤ

/-- The queueBatch fields `queueBatch.exec` reads: the loaded max offset,
the removed (GC) offset, and the flat key/value pair slice, whose entries
are opaque ids. -/
structure QueueBatchState where
  maxOffset : ℕ
  removedOffset : ℕ
  pairs : List ℕ

/-- A write issued by `queueBatch.exec` into the write batch. -/
inductive QueueWrite where
  | setOffsets (maxOffset removedOffset : ℕ)
  | setItem (key value : ℕ)
deriving DecidableEq

/-- Outcome of `queueBatch.exec`: the fatal abort, an error return, or the
writes placed into the write batch. -/
inductive QueueExecOutcome where
  | fatal
  | err (msg : String)
  | ok (writes : List QueueWrite)
deriving DecidableEq

/-- The item-write loop of `queueBatch.exec` (batch.go:234): consecutive
pairs of the flat slice become Set writes. -/
def pairWrites : List ℕ → List QueueWrite
  | k :: v :: rest => QueueWrite.setItem k v :: pairWrites rest
  | _ => []

/-- The consumer scan of `queueBatch.exec` (batch.go:205): the minimum
committed offset over consumers whose last fetch is younger than
`maxConsumerAlive`, starting from the maximal uint64. -/
def lowWater (now : ℤ) (consumers : List QueueConsumer) : ℕ :=
  consumers.foldl
    (fun low c =>
      if now - c.lastFetchTS < maxConsumerAlive ∧ c.committed < low then c.committed else low)
    (U64 - 1)

/-- `queueBatch.exec` (batch.go:195): reject an odd pair slice; when offsets
were loaded and the backlog `maxOffset - removedOffset` (uint64 arithmetic)
exceeds `countToClean`, compute the low water mark, and when it exceeds the
removed offset the code range-deletes the item keys and then - with no error
guard, exactly as at batch.go:224 - calls log.Fatalf unconditionally, so
this branch aborts the process; otherwise the offsets and the buffered
items are written. -/
def queueExec (now : ℤ) (consumers : List QueueConsumer) (qb : QueueBatchState) :
    QueueExecOutcome :=
  if qb.pairs.length % 2 ≠ 0 then
    .err ("queue batch pairs len must pow of 2, but " ++ Nat.repr qb.pairs.length)
  else if 0 < qb.maxOffset then
    if countToClean < (qb.maxOffset + U64 - qb.removedOffset) % U64 then
      if qb.removedOffset < lowWater now consumers then
        QueueExecOutcome.fatal
      else
        QueueExecOutcome.ok
          (QueueWrite.setOffsets qb.maxOffset qb.removedOffset :: pairWrites qb.pairs)
    else
      QueueExecOutcome.ok
        (QueueWrite.setOffsets qb.maxOffset qb.removedOffset :: pairWrites qb.pairs)
  else
    QueueExecOutcome.ok (pairWrites qb.pairs)

/-- C2: the claim says `removeFromStep` reports `changed = true` exactly when
the step crowd's cardinality decreased and `moveToStep` reports
`changed = true` exactly when it increased.  The code contradicts this, as
the spec's own design notes suspect: on the crowd `[{1, 2}]` a bulk removal
of `{1}` shrinks the crowd to `{2}` yet reports false, and on the crowd
`[{1}]` a single-user move of user 1 leaves the cardinality unchanged yet
reports true. -/
theorem spec_c2_bug :
    (removeFromStep ⟨{1, 2}, [{1, 2}], none, [], [], false⟩ 0 ⟨0, some {1}⟩).2 = false ∧
    ((removeFromStep ⟨{1, 2}, [{1, 2}], none, [], [], false⟩ 0 ⟨0, some {1}⟩).1.stepCrowds.getD 0 ∅).card <
      ({1, 2} : BM).card ∧
    (moveToStep ⟨{1}, [{1}], none, [], [], false⟩ 0 ⟨1, none⟩).2 = true ∧
    ((moveToStep ⟨{1}, [{1}], none, [], [], false⟩ 0 ⟨1, none⟩).1.stepCrowds.getD 0 ∅).card =
      ({1} : BM).card := by
  decide

/-- C5: the claim says the GC branch of `queueBatch.exec` range-deletes
`[removedOffset, low+1)` and advances `removedOffset` to `low`.  The code
instead calls log.Fatalf unconditionally right after the range delete
(batch.go:224 lacks the `if err != nil` guard used three lines above), so
any batch whose backlog exceeds `countToClean` with a live consumer
committed past `removedOffset` aborts the process: with `maxOffset = 5000`,
`removedOffset = 0` and one consumer committed at 4000 fetched now, exec is
fatal. -/
theorem spec_c5_bug :
    queueExec 0 [⟨4000, 0⟩] ⟨5000, 0, []⟩ = QueueExecOutcome.fatal := by
  decide

/-- C3: the effective crowd submitted by `StartInstance` (persisted and
counted into `TotalCrowd`) is the loaded crowd when no previous instance
exists, and the loaded crowd AND NOT the previous stopped instance's loader
bitmap when one does. -/
theorem spec_c3 (env : StartEnv) (workers : ℕ) (bm : BM) (id : ℕ)
    (hchk : env.checkRes = none) (hload : env.loadCrowd = .ok bm)
    (hid : env.alloc = .ok id) (hput : env.putRes = .ok ())
    (hexec : env.execRes = .ok ()) :
    (env.loadInst = .ok none →
      StartInstance env workers = .ok (some ⟨id, bm, bm.card, workers⟩)) ∧
    (∀ oldBM : BM,
      env.loadInst = .ok (some ⟨InstanceState.Stopped, .ok oldBM⟩) →
      StartInstance env workers = .ok (some ⟨id, bm \ oldBM, (bm \ oldBM).card, workers⟩)) := by
  constructor
  · intro hinst
    simp [StartInstance, hchk, hload, hinst, startSubmit, hid, hput, hexec]
  · intro oldBM hinst
    simp [StartInstance, hchk, hload, hinst, startSubmit, hid, hput, hexec]

/-- Witness for C3 at a concrete environment. -/
theorem spec_c3_witness :
    (StartInstance ⟨none, .ok {1, 2}, .ok none, .ok 7, .ok (), .ok ()⟩ 2 =
      .ok (some ⟨7, {1, 2}, ({1, 2} : BM).card, 2⟩)) ∧
    (StartInstance ⟨none, .ok {1, 2}, .ok (some ⟨InstanceState.Stopped, .ok {2}⟩), .ok 7, .ok (), .ok ()⟩ 2 =
      .ok (some ⟨7, {1, 2} \ {2}, (({1, 2} : BM) \ {2}).card, 2⟩)) :=
  ⟨(spec_c3 _ 2 {1, 2} 7 rfl rfl rfl rfl rfl).1 rfl,
   (spec_c3 _ 2 {1, 2} 7 rfl rfl rfl rfl rfl).2 {2} rfl⟩

/-- C7: when the loaded previous instance is not Stopped, `StartInstance`
returns nil without error and without submitting a Starting command. -/
theorem spec_c7 (env : StartEnv) (workers : ℕ) (bm : BM) (old : PrevInstance)
    (hchk : env.checkRes = none) (hload : env.loadCrowd = .ok bm)
    (hinst : env.loadInst = .ok (some old))
    (hstate : old.state ≠ InstanceState.Stopped) :
    StartInstance env workers = .ok none := by
  simp [StartInstance, hchk, hload, hinst, hstate]

/-- Witness for C7 at a concrete environment with a Running previous
instance. -/
theorem spec_c7_witness :
    StartInstance ⟨none, .ok {1}, .ok (some ⟨InstanceState.Running, .ok ∅⟩), .ok 1, .ok (), .ok ()⟩ 1 =
      .ok none :=
  spec_c7 _ 1 {1} ⟨InstanceState.Running, .ok ∅⟩ rfl rfl rfl (by decide)

/-- C8: with the sticky error set, `doStepTimerEvent` leaves the transaction
untouched, and `doStepUserEvents` and `doUpdateCrowd` only collect the
item's callback - no crowd, change or flag mutation happens. -/
theorem spec_c8 (w : StateWorker) (execute : ExecuteFn) (itT : Item ℕ)
    (itU : Item (List UserEvent)) (itC : Item BM) (t : Transaction) (e : String)
    (h : t.err = some e) :
    doStepTimerEvent w execute itT t = t ∧
    doStepUserEvents execute itU t = { t with cbs := t.cbs ++ itU.cb.toList } ∧
    doUpdateCrowd itC t = { t with cbs := t.cbs ++ itC.cb.toList } := by
  refine ⟨?_, ?_, ?_⟩
  · simp [doStepTimerEvent, h]
  · cases hc : itU.cb
    · simp [doStepUserEvents, collectCb, hc, h]
      rw [← h]
    · simp [doStepUserEvents, collectCb, hc, h]
  · cases hc : itC.cb
    · simp [doUpdateCrowd, collectCb, hc, h]
      rw [← h]
    · simp [doUpdateCrowd, collectCb, hc, h]

/-- Witness for C8 on a concrete errored transaction. -/
theorem spec_c8_witness :
    doStepTimerEvent ⟨[], id, fun _ => false⟩ (fun _ _ t _ => (t, none)) ⟨0, none⟩
        ⟨{1}, [{1}], some "boom", [7], [], false⟩ =
      ⟨{1}, [{1}], some "boom", [7], [], false⟩ ∧
    doStepUserEvents (fun _ _ t _ => (t, none)) ⟨[], some 3⟩
        ⟨{1}, [{1}], some "boom", [7], [], false⟩ =
      { (⟨{1}, [{1}], some "boom", [7], [], false⟩ : Transaction) with
          cbs := [7] ++ (some 3).toList } ∧
    doUpdateCrowd ⟨∅, some 4⟩ ⟨{1}, [{1}], some "boom", [7], [], false⟩ =
      { (⟨{1}, [{1}], some "boom", [7], [], false⟩ : Transaction) with
          cbs := [7] ++ (some 4).toList } :=
  spec_c8 _ _ _ _ _ _ "boom" rfl

/-- C9 fails as stated: the registry key is built from the WorkflowID, not
the InstanceID the claim names.  On a state with WorkflowID 7, InstanceID 9
and Index 1 the code's key "7/1" differs from the claimed "9/1". -/
theorem spec_c9_counterexample :
    workerKey ⟨3, 7, 9, 1, 0⟩ ≠ workerKeyClaimed ⟨3, 7, 9, 1, 0⟩ := by
  decide

/-- C9 amended: each state worker is registered under the key
"WorkflowID/Index" (not InstanceID), and a worker-placement event whose key
is already registered is a fatal BUG abort; an unregistered, unexpired key
creates the worker under exactly that key. -/
theorem spec_c9_amended (registry : List String) (now : ℤ) (s : WorkerState) :
    (doStartInstanceStateEvent registry now s = .fatalBug ↔ workerKey s ∈ registry) ∧
    (workerKey s ∉ registry → ¬(s.stopAt ≠ 0 ∧ now ≥ s.stopAt) →
      doStartInstanceStateEvent registry now s = .created (workerKey s)) ∧
    workerKey s = Nat.repr s.workflowID ++ "/" ++ Nat.repr s.index := by
  refine ⟨?_, ?_, rfl⟩
  · by_cases hmem : workerKey s ∈ registry
    · simp [doStartInstanceStateEvent, hmem]
    · simp only [doStartInstanceStateEvent, if_neg hmem]
      constructor
      · intro h
        split at h <;> simp_all
      · intro h
        exact absurd h hmem
  · intro h1 h2
    simp [doStartInstanceStateEvent, h1, h2]

/-- Witness for the amended C9 on a concrete registry and state. -/
theorem spec_c9_witness :
    (doStartInstanceStateEvent ["7/1"] 5 ⟨3, 7, 9, 1, 0⟩ = .fatalBug ↔
      workerKey ⟨3, 7, 9, 1, 0⟩ ∈ ["7/1"]) ∧
    doStartInstanceStateEvent [] 5 ⟨3, 7, 9, 1, 0⟩ = .created (workerKey ⟨3, 7, 9, 1, 0⟩) :=
  ⟨(spec_c9_amended ["7/1"] 5 ⟨3, 7, 9, 1, 0⟩).1,
   (spec_c9_amended [] 5 ⟨3, 7, 9, 1, 0⟩).2.1 (by simp) (by decide)⟩

/-- C10 fails in one conjunct: an unsupported request is indeed rejected
with (false, nil) and nothing buffered, but the batch is not left unchanged
- `b.shard = shard` runs before the type dispatch, so a fresh batch passed
an unsupported request for shard 5 comes back with its shard field set. -/
theorem spec_c10_counterexample :
    batchAdd (fun _ => false) ⟨0, []⟩ 5 ⟨9, 1⟩ = .ok ⟨5, []⟩ false none ∧
    (⟨5, []⟩ : Batch) ≠ ⟨0, []⟩ := by
  decide

/-- C10 amended: `batch.Add` aborts fatally when the request's shard differs
from the non-zero shard already recorded, and an unsupported custom type is
rejected (false, no response) with nothing buffered, though the batch's
shard field is first updated to the request's shard. -/
theorem spec_c10_amended (supported : ℕ → Bool) (b : Batch) (shard : ℕ) (req : BatchReq) :
    (b.shard ≠ 0 → b.shard ≠ shard → batchAdd supported b shard req = .fatalBug) ∧
    (supported req.custemType = false → b.shard = 0 ∨ b.shard = shard →
      batchAdd supported b shard req = .ok ⟨shard, b.buffered⟩ false none) := by
  constructor
  · intro h1 h2
    simp [batchAdd, h1, h2]
  · intro h1 h2
    have hno : ¬(b.shard ≠ 0 ∧ b.shard ≠ shard) := by
      rcases h2 with h | h <;> simp [h]
    simp [batchAdd, hno, h1]

/-- Witness for the amended C10 on concrete batches. -/
theorem spec_c10_witness :
    batchAdd (fun _ => false) ⟨7, []⟩ 5 ⟨9, 2⟩ = .fatalBug ∧
    batchAdd (fun _ => false) ⟨0, []⟩ 5 ⟨9, 2⟩ = .ok ⟨5, []⟩ false none :=
  ⟨(spec_c10_amended (fun _ => false) ⟨7, []⟩ 5 ⟨9, 2⟩).1 (by decide) (by decide),
   (spec_c10_amended (fun _ => false) ⟨0, []⟩ 5 ⟨9, 2⟩).2 rfl (Or.inl rfl)⟩

/-- Away from index zero, the doUpdateCrowd rewrite is plain intersection
with the new total. -/
lemma applyNewTotal_of_pos (a nt : BM) :
    ∀ (l : List BM) (k : ℕ), k ≠ 0 →
      applyNewTotal a nt k l = l.map (fun sc => sc ∩ nt) := by
  intro l
  induction l with
  | nil => intro k _; rfl
  | cons c rest ih =>
    intro k hk
    simp only [applyNewTotal, if_neg hk, List.map_cons]
    exact congrArg _ (ih (k + 1) (by omega))

/-- Mapping intersection over the crowds commutes with indexed lookup. -/
lemma getD_map_inter (nt : BM) :
    ∀ (l : List BM) (i : ℕ), i < l.length →
      (l.map (fun sc => sc ∩ nt)).getD i ∅ = (l.getD i ∅) ∩ nt := by
  intro l
  induction l with
  | nil => intro i hi; exact absurd hi (by simp)
  | cons c rest ih =>
    intro i hi
    cases i with
    | zero => simp
    | succ n => simpa using ih n (by simpa using hi)

/-- Intersecting after the union of a subset of the new total distributes:
what step 0 gains is exactly the newly added users. -/
lemma union_sdiff_inter (c0 nt tc : BM) :
    (c0 ∪ (nt \ tc)) ∩ nt = (c0 ∩ nt) ∪ (nt \ tc) := by
  ext x
  simp only [Finset.mem_inter, Finset.mem_union, Finset.mem_sdiff]
  tauto

/-- C1: with no sticky error, `doUpdateCrowd` installs the parsed total,
marks `crowdChanged`, collects the callback, leaves the accumulated changes
alone, and rewrites the step crowds so that step 0 becomes its old crowd
intersected with the new total plus exactly the users of
`newTotal AND NOT totalCrowds`, while every other step is its old crowd
intersected with the new total. -/
theorem spec_c1 (it : Item BM) (t : Transaction) (h : t.err = none) :
    (doUpdateCrowd it t).totalCrowds = it.value ∧
    (doUpdateCrowd it t).crowdChanged = true ∧
    (doUpdateCrowd it t).cbs = t.cbs ++ it.cb.toList ∧
    (doUpdateCrowd it t).changes = t.changes ∧
    (doUpdateCrowd it t).stepCrowds.length = t.stepCrowds.length ∧
    ∀ i, i < t.stepCrowds.length →
      (doUpdateCrowd it t).stepCrowds.getD i ∅ =
        if i = 0 then
          ((t.stepCrowds.getD i ∅) ∩ it.value) ∪ (it.value \ t.totalCrowds)
        else
          (t.stepCrowds.getD i ∅) ∩ it.value := by
  have hcb : (collectCb it t).err = none ∧ (collectCb it t).totalCrowds = t.totalCrowds ∧
      (collectCb it t).stepCrowds = t.stepCrowds ∧ (collectCb it t).changes = t.changes ∧
      (collectCb it t).cbs = t.cbs ++ it.cb.toList := by
    cases hc : it.cb <;> simp [collectCb, hc, h]
  obtain ⟨he, htc, hsc, hch, hcbs⟩ := hcb
  have hred : doUpdateCrowd it t =
      { collectCb it t with
        totalCrowds := it.value,
        stepCrowds := applyNewTotal (it.value \ (collectCb it t).totalCrowds) it.value 0
          (collectCb it t).stepCrowds,
        crowdChanged := true } := by
    simp [doUpdateCrowd, he]
  rw [hred]
  refine ⟨rfl, rfl, hcbs, hch, ?_, ?_⟩
  · rw [htc, hsc]
    cases t.stepCrowds with
    | nil => rfl
    | cons c0 rest =>
      simp [applyNewTotal, applyNewTotal_of_pos _ _ rest 1 (by omega)]
  · intro i hi
    rw [htc, hsc]
    cases hsteps : t.stepCrowds with
    | nil => rw [hsteps] at hi; exact absurd hi (by simp)
    | cons c0 rest =>
      rw [hsteps] at hi
      cases i with
      | zero =>
        simp only [applyNewTotal, if_pos rfl, List.getD_cons_zero, if_pos rfl]
        exact union_sdiff_inter c0 it.value t.totalCrowds
      | succ n =>
        have hn : n < rest.length := by simpa using hi
        simp only [applyNewTotal, List.getD_cons_succ,
          applyNewTotal_of_pos (it.value \ t.totalCrowds) it.value rest 1 (by omega)]
        rw [getD_map_inter it.value rest n hn]
        simp

/-- Witness for C1 on a concrete transaction: new total {2, 3} over old
total {1, 2} with step crowds [{1}, {2}]. -/
theorem spec_c1_witness :
    (doUpdateCrowd ⟨{2, 3}, some 9⟩ ⟨{1, 2}, [{1}, {2}], none, [], [], false⟩).totalCrowds = {2, 3} ∧
    (doUpdateCrowd ⟨{2, 3}, some 9⟩ ⟨{1, 2}, [{1}, {2}], none, [], [], false⟩).crowdChanged = true ∧
    (doUpdateCrowd ⟨{2, 3}, some 9⟩ ⟨{1, 2}, [{1}, {2}], none, [], [], false⟩).cbs = [9] ∧
    (doUpdateCrowd ⟨{2, 3}, some 9⟩ ⟨{1, 2}, [{1}, {2}], none, [], [], false⟩).changes = [] ∧
    (doUpdateCrowd ⟨{2, 3}, some 9⟩ ⟨{1, 2}, [{1}, {2}], none, [], [], false⟩).stepCrowds.getD 0 ∅ =
      (({1} : BM) ∩ {2, 3}) ∪ (({2, 3} : BM) \ {1, 2}) ∧
    (doUpdateCrowd ⟨{2, 3}, some 9⟩ ⟨{1, 2}, [{1}, {2}], none, [], [], false⟩).stepCrowds.getD 1 ∅ =
      ({2} : BM) ∩ {2, 3} := by
  have hmain := spec_c1 ⟨{2, 3}, some 9⟩ ⟨{1, 2}, [{1}, {2}], none, [], [], false⟩ rfl
  refine ⟨hmain.1, hmain.2.1, hmain.2.2.1, hmain.2.2.2.1, ?_, ?_⟩
  · simpa using hmain.2.2.2.2.2 0 (by decide)
  · simpa using hmain.2.2.2.2.2 1 (by decide)

/-- A two-step configuration whose direct steps form a cycle: both "a" and
"b" are direct. -/
def cycIsDirect : String → Bool := fun s => s == "a" || s == "b"

/-- The cyclic direct-step targets: "a" chains to "b" and "b" back to "a". -/
def cycNext : String → String := fun s => if s == "a" then "b" else "a"

/-- On the cyclic configuration the walk never reaches a non-direct step,
whatever the fuel. -/
lemma cyc_directChain_none :
    ∀ (n : ℕ) (s : String), s = "a" ∨ s = "b" →
      directChain cycIsDirect cycNext n s = none := by
  intro n
  induction n with
  | zero => intro s _; rfl
  | succ n ih =>
    intro s hs
    have hnext : cycNext s = "b" ∨ cycNext s = "a" := by
      rcases hs with h | h <;> simp [cycNext, h]
    have hd : cycIsDirect (cycNext s) = true := by
      rcases hnext with h | h <;> simp [cycIsDirect, h]
    have hrec : directChain cycIsDirect cycNext n (cycNext s) = none := by
      rcases hnext with h | h
      · exact ih (cycNext s) (Or.inr h)
      · exact ih (cycNext s) (Or.inl h)
    simp [directChain, hd, hrec]

/-- C4 fails as stated: the runtime walk of `maybeTriggerDirectSteps` has no
defensive bound at all - on a workflow whose two steps are both direct and
chain to each other, the walk from step "a" never terminates, so no bound
by the number of steps holds. -/
theorem spec_c4_counterexample :
    ¬ directChainTerminates cycIsDirect cycNext "a" := by
  rintro ⟨n, l, h⟩
  rw [cyc_directChain_none n "a" (Or.inl rfl)] at h
  exact Option.noConfusion h

/-- C4 amended: the walk terminates only when the chain of direct steps
reaches a non-direct step within the available fuel (which the validator's
direct-acyclicity check is meant to guarantee with fuel the number of
steps); whenever it does terminate it emits exactly one changedCtx per hop:
at most `n` hops, starting at the entered step, each hop following
`directSteps`, consecutive hops chained, every intermediate target direct
and the final target not direct.  The code itself imposes no defensive
bound. -/
theorem spec_c4_amended (isD : String → Bool) (next : String → String) :
    ∀ (n : ℕ) (s : String) (l : List (String × String)),
      directChain isD next n s = some l →
      l ≠ [] ∧ l.length ≤ n ∧ l.head?.map Prod.fst = some s ∧
      (∀ p ∈ l, p.2 = next p.1) ∧
      List.Chain' (fun p q => q.1 = p.2) l ∧
      (∀ p ∈ l.dropLast, isD p.2 = true) ∧
      (∀ p, l.getLast? = some p → isD p.2 = false) := by
  intro n
  induction n with
  | zero => intro s l h; exact absurd h (by simp [directChain])
  | succ n ih =>
    intro s l h
    simp only [directChain] at h
    by_cases hd : isD (next s)
    · rw [if_pos hd] at h
      obtain ⟨l0, h0, hl⟩ := Option.map_eq_some'.mp h
      subst hl
      obtain ⟨hne, hlen, hhead, hnext2, hchain, hdrop, hlast⟩ := ih (next s) l0 h0
      cases l0 with
      | nil => exact absurd rfl hne
      | cons q rest =>
        have hq1 : q.1 = next s := by
          simpa using hhead
        refine ⟨by simp, by simpa using hlen, by simp, ?_, ?_, ?_, ?_⟩
        · intro p hp
          rcases List.mem_cons.mp hp with rfl | hp'
          · rfl
          · exact hnext2 p hp'
        · exact List.chain'_cons.mpr ⟨hq1, hchain⟩
        · intro p hp
          rw [List.dropLast_cons₂] at hp
          rcases List.mem_cons.mp hp with rfl | hp'
          · exact hd
          · exact hdrop p hp'
        · intro p hp
          rw [List.getLast?_cons_cons] at hp
          exact hlast p hp
    · rw [if_neg hd] at h
      have hl : l = [(s, next s)] := by
        cases h
        rfl
      subst hl
      refine ⟨by simp, by simp, by simp, ?_, by simp, by simp, ?_⟩
      · intro p hp
        rcases List.mem_cons.mp hp with rfl | hp'
        · rfl
        · exact absurd hp' (by simp)
      · intro p hp
        have heq : (s, next s) = p := by simpa using hp
        subst heq
        simpa using hd

/-- Witness for the amended C4 on a linear direct chain a - b - c with fuel
three. -/
theorem spec_c4_witness :
    ([("a", "b"), ("b", "c")] : List (String × String)) ≠ [] ∧
    ([("a", "b"), ("b", "c")] : List (String × String)).length ≤ 3 ∧
    ([("a", "b"), ("b", "c")] : List (String × String)).head?.map Prod.fst = some "a" ∧
    (∀ p ∈ ([("a", "b"), ("b", "c")] : List (String × String)),
      p.2 = (fun s => if s == "a" then "b" else "c") p.1) ∧
    List.Chain' (fun p q => q.1 = p.2) ([("a", "b"), ("b", "c")] : List (String × String)) ∧
    (∀ p ∈ ([("a", "b"), ("b", "c")] : List (String × String)).dropLast,
      (fun s => s == "a" || s == "b") p.2 = true) ∧
    (∀ p, ([("a", "b"), ("b", "c")] : List (String × String)).getLast? = some p →
      (fun s => s == "a" || s == "b") p.2 = false) :=
  spec_c4_amended (fun s => s == "a" || s == "b") (fun s => if s == "a" then "b" else "c")
    3 "a" [("a", "b"), ("b", "c")] (by decide)

/-- `removeFromStep` touches nothing but the indexed step crowd: the
accumulated changes, the flags and every other crowd are preserved. -/
lemma removeFromStep_pres (t : Transaction) (idx : ℕ) (target : Who) :
    (removeFromStep t idx target).1.changes = t.changes ∧
    (removeFromStep t idx target).1.crowdChanged = t.crowdChanged ∧
    (removeFromStep t idx target).1.err = t.err ∧
    (removeFromStep t idx target).1.totalCrowds = t.totalCrowds ∧
    ∀ m, m ≠ idx → (removeFromStep t idx target).1.stepCrowds.getD m ∅ = t.stepCrowds.getD m ∅ := by
  rcases target with ⟨usr, us⟩
  cases us with
  | none =>
    refine ⟨rfl, rfl, rfl, rfl, ?_⟩
    intro m hm
    simp [removeFromStep, List.getD, List.getElem?_set_ne (Ne.symm hm)]
  | some u =>
    simp only [removeFromStep]
    split
    · exact ⟨rfl, rfl, rfl, rfl, fun m _ => rfl⟩
    · refine ⟨rfl, rfl, rfl, rfl, ?_⟩
      intro m hm
      simp [List.getD, List.getElem?_set_ne (Ne.symm hm)]

/-- A bulk move whose union does not change the cardinality is the identity
and reports no change. -/
lemma moveToStep_of_eqCard (t : Transaction) (idx : ℕ) (target : Who) (v : BM)
    (hu : target.users = some v)
    (h : (t.stepCrowds.getD idx ∅).card = ((t.stepCrowds.getD idx ∅) ∪ v).card) :
    moveToStep t idx target = (t, false) := by
  rcases target with ⟨usr, us⟩
  cases hu
  simp only [moveToStep]
  rw [if_pos h]

/-- The default step used to state indexed lookups over the worker's steps. -/
def dfltStep : StepInfo := ⟨"", ExecutionType.Conditional, 0⟩

/-- The stepChanged index loop when every step named as the target would
gain nothing from the bulk set: it completes without consuming fuel, the
accumulated changes and the crowd-changed flag are untouched, and the
crowds below the starting index are preserved. -/
lemma stepChangedLoop_noGrowth (w : StateWorker) (fuel : ℕ) (v : BM) :
    ∀ (l : List StepInfo) (idx : ℕ) (c : ChangedCtx) (t : Transaction),
      c.who.users = some v →
      (∀ q, q < l.length → (l.getD q dfltStep).name = c.to_ →
        (t.stepCrowds.getD (idx + q) ∅).card = ((t.stepCrowds.getD (idx + q) ∅) ∪ v).card) →
      ∃ t', stepChangedLoop w fuel l idx c t = some t' ∧
        t'.changes = t.changes ∧ t'.crowdChanged = t.crowdChanged ∧
        ∀ m, m < idx → t'.stepCrowds.getD m ∅ = t.stepCrowds.getD m ∅ := by
  intro l
  induction l with
  | nil =>
    intro idx c t _ _
    exact ⟨t, rfl, rfl, rfl, fun m _ => rfl⟩
  | cons s rest ih =>
    intro idx c t hv hng
    have hshift : ∀ q, q < rest.length → (rest.getD q dfltStep).name = c.to_ →
        (t.stepCrowds.getD (idx + 1 + q) ∅).card =
          ((t.stepCrowds.getD (idx + 1 + q) ∅) ∪ v).card := by
      intro q hq hname
      have h2 : ((s :: rest).getD (q + 1) dfltStep).name = c.to_ := by
        simpa using hname
      have h3 := hng (q + 1) (by simp only [List.length_cons]; omega) h2
      have hpos : idx + 1 + q = idx + (q + 1) := by omega
      rw [hpos]
      exact h3
    simp only [stepChangedLoop]
    by_cases hf : s.name = c.from_
    · rw [if_pos hf]
      obtain ⟨pch, pcc, _, _, pstep⟩ := removeFromStep_pres t idx c.who
      have hshift' : ∀ q, q < rest.length → (rest.getD q dfltStep).name = c.to_ →
          (((removeFromStep t idx c.who).1).stepCrowds.getD (idx + 1 + q) ∅).card =
            ((((removeFromStep t idx c.who).1).stepCrowds.getD (idx + 1 + q) ∅) ∪ v).card := by
        intro q hq hname
        rw [pstep (idx + 1 + q) (by omega)]
        exact hshift q hq hname
      obtain ⟨t', hrun, hch, hcc, hpr⟩ :=
        ih (idx + 1) c (removeFromStep t idx c.who).1 hv hshift'
      refine ⟨t', hrun, hch.trans pch, hcc.trans pcc, ?_⟩
      intro m hm
      exact (hpr m (by omega)).trans (pstep m (by omega))
    · rw [if_neg hf]
      by_cases hto : s.name = c.to_
      · rw [if_pos hto]
        have h0 := hng 0 (by simp) (by simpa using hto)
        rw [Nat.add_zero] at h0
        have hmv : moveToStep t idx c.who = (t, false) :=
          moveToStep_of_eqCard t idx c.who v hv h0
        rw [hmv]
        obtain ⟨t', hrun, hch, hcc, hpr⟩ :=
          ih (idx + 1) { c with ttl := s.ttl } t hv hshift
        exact ⟨t', hrun, hch, hcc, fun m hm => hpr m (by omega)⟩
      · rw [if_neg hto]
        obtain ⟨t', hrun, hch, hcc, hpr⟩ := ih (idx + 1) c t hv hshift
        exact ⟨t', hrun, hch, hcc, fun m hm => hpr m (by omega)⟩

/-- C6: for a transition reported with a non-nil bulk user set, stepChanged
behaves exactly as if the set had been replaced by its intersection with
the transaction's total crowd (the scoping happens first), and whenever no
step named as the target would grow from that scoped set, the loop
completes with the accumulated changes and the crowd-changed flag
untouched - a changedCtx record is added only if the target step's
membership actually grew. -/
theorem spec_c6 (w : StateWorker) (fuel : ℕ) (c : ChangedCtx) (t : Transaction) (u : BM)
    (hbulk : c.who.users = some u)
    (hng : ∀ q ∈ List.range w.states.length,
      (w.states.getD q dfltStep).name = c.to_ →
      (t.stepCrowds.getD q ∅).card =
        ((t.stepCrowds.getD q ∅) ∪ (u ∩ t.totalCrowds)).card) :
    stepChanged w fuel c t =
      stepChanged w fuel { c with who := ⟨c.who.user, some (u ∩ t.totalCrowds)⟩ } t ∧
    ∃ t', stepChanged w fuel c t = some t' ∧
      t'.changes = t.changes ∧ t'.crowdChanged = t.crowdChanged := by
  obtain ⟨cf, ct, ⟨usr, us⟩, cttl⟩ := c
  simp only at hbulk hng
  subst hbulk
  constructor
  · simp only [stepChanged]
    rw [Finset.inter_assoc, Finset.inter_self]
  · have hng' : ∀ q, q < w.states.length →
        (w.states.getD q dfltStep).name =
          (⟨cf, ct, ⟨usr, some (u ∩ t.totalCrowds)⟩, cttl⟩ : ChangedCtx).to_ →
        (t.stepCrowds.getD (0 + q) ∅).card =
          ((t.stepCrowds.getD (0 + q) ∅) ∪ (u ∩ t.totalCrowds)).card := by
      intro q hq hname
      have := hng q (List.mem_range.mpr hq) hname
      simpa using this
    obtain ⟨t', hrun, hch, hcc, _⟩ :=
      stepChangedLoop_noGrowth w fuel (u ∩ t.totalCrowds) w.states 0
        ⟨cf, ct, ⟨usr, some (u ∩ t.totalCrowds)⟩, cttl⟩ t rfl hng'
    exact ⟨t', hrun, hch, hcc⟩

/-- Witness for C6 on a two-step worker: moving the bulk set {2} from step A
into step B, whose crowd already holds user 2, grows nothing and leaves the
accumulated changes empty. -/
theorem spec_c6_witness :
    stepChanged ⟨[⟨"A", ExecutionType.Conditional, 0⟩, ⟨"B", ExecutionType.Conditional, 5⟩],
        id, fun _ => false⟩ 0 ⟨"A", "B", ⟨0, some {2}⟩, 0⟩
        ⟨{1, 2}, [{1}, {2}], none, [], [], false⟩ =
      stepChanged ⟨[⟨"A", ExecutionType.Conditional, 0⟩, ⟨"B", ExecutionType.Conditional, 5⟩],
        id, fun _ => false⟩ 0
        { (⟨"A", "B", ⟨0, some {2}⟩, 0⟩ : ChangedCtx) with
            who := ⟨0, some (({2} : BM) ∩ {1, 2})⟩ }
        ⟨{1, 2}, [{1}, {2}], none, [], [], false⟩ ∧
    ∃ t', stepChanged ⟨[⟨"A", ExecutionType.Conditional, 0⟩, ⟨"B", ExecutionType.Conditional, 5⟩],
        id, fun _ => false⟩ 0 ⟨"A", "B", ⟨0, some {2}⟩, 0⟩
        ⟨{1, 2}, [{1}, {2}], none, [], [], false⟩ = some t' ∧
      t'.changes = [] ∧ t'.crowdChanged = false :=
  spec_c6 ⟨[⟨"A", ExecutionType.Conditional, 0⟩, ⟨"B", ExecutionType.Conditional, 5⟩],
      id, fun _ => false⟩ 0 ⟨"A", "B", ⟨0, some {2}⟩, 0⟩
    ⟨{1, 2}, [{1}, {2}], none, [], [], false⟩ {2} rfl (by decide)

end Busybee
